import Mathlib

set_option autoImplicit false

/-!
A shallow embedding of `custom-error-instance` (`src/bin/error.js`), a factory
for hierarchical error types.  JS objects become insertion-ordered association
lists, JS values an inductive `Val`, and the host's stack capture an abstract
oracle.  Line numbers in comments refer to `src/bin/error.js`.
-/

namespace CustomErrorInstance

/-- JS values relevant to the library: strings, numbers (with NaN kept apart
from the integral numbers the claims use), booleans and `undefined`. -/
inductive Val where
  | str (s : String)
  | num (n : Int)
  | nan
  | bool (b : Bool)
  | undefined
deriving DecidableEq

/-- JS truthiness for the values modelled by `Val`. -/
def truthy : Val → Bool
  | .str s => s ≠ ""
  | .num n => n ≠ 0
  | .nan => false
  | .bool b => b
  | .undefined => false

/-- JS string coercion, as used by the `+` concatenations in `toString`. -/
def valToString : Val → String
  | .str s => s
  | .num n => toString n
  | .nan => "NaN"
  | .bool b => if b then "true" else "false"
  | .undefined => "undefined"

/-- A JS object, modelled as an insertion-ordered association list.  Objects
produced by the library always have pairwise distinct keys. -/
abbrev PropsObj := List (String × Val)

/-- Property lookup.  With distinct keys (the JS object invariant) this is
ordinary lookup; a duplicated key resolves to the last write, as a sequence of
JS assignments would. -/
def getKey (o : PropsObj) (k : String) : Option Val :=
  o.foldl (fun acc p => if p.1 == k then some p.2 else acc) none

/-- `target[k] = v`: replace an existing key in place, else append, matching
JS insertion-order semantics. -/
def setKey (o : PropsObj) (k : String) (v : Val) : PropsObj :=
  if o.any (fun p => p.1 == k) then
    o.map (fun p => if p.1 == k then (k, v) else p)
  else o ++ [(k, v)]

/-- `Object.assign(target, src)`: copy each own enumerable key of `src` onto
`target`, in key order. -/
def assign (target src : PropsObj) : PropsObj :=
  src.foldl (fun t p => setKey t p.1 p.2) target

/-- Identity of a factory function: the module's shared no-op sentinel
(line 139), the library's `rootFactory` (line 141), or a user-supplied function
(identified by a tag whose behaviour an environment supplies at construction
time).  Line 62 compares factories by reference against the sentinel. -/
inductive FactoryRef where
  | noop
  | rootFactory
  | user (id : Nat)
deriving DecidableEq

/-- The `construct.prototype.CustomError` record (lines 76-82), without the
redundant `parent` and `chain` back-references: display name, default
properties and factory. -/
structure Desc where
  name : String
  properties : PropsObj
  factory : FactoryRef
deriving DecidableEq

def defaultDesc : Desc := ⟨"", [], .noop⟩

/-- A built error type, identified by its descriptor chain, leaf first
(line 83 unshifts the new descriptor onto a copy of the parent's chain). -/
structure BuiltType where
  chain : List Desc
deriving DecidableEq

/-- A value passed positionally to `CustomError(...)`, distinguished the way
the argument classifier's type predicates distinguish values: a string, the
built-in `Error` constructor, a previously built constructor (it carries
`prototype.CustomError`), a plain function, a non-null object, or anything
else (grouped under `other`, which no predicate matches). -/
inductive ArgVal where
  | str (s : String)
  | errorCtor
  | customCtor (t : BuiltType)
  | func (f : FactoryRef)
  | obj (o : PropsObj)
  | other
deriving DecidableEq

/-- Line 123: callable, not `Error`, and without `prototype.CustomError`. -/
def isFactoryArg : ArgVal → Bool
  | .func _ => true
  | _ => false

/-- Line 127: a string. -/
def isNameArg : ArgVal → Bool
  | .str _ => true
  | _ => false

/-- Line 131: `Error` itself or a constructor carrying `prototype.CustomError`. -/
def isParentArg : ArgVal → Bool
  | .errorCtor => true
  | .customCtor _ => true
  | _ => false

/-- Line 135: a truthy value of object type. -/
def isPropertiesArg : ArgVal → Bool
  | .obj _ => true
  | _ => false

/-- `arguments[i]`, which is `undefined` past the end of the argument list. -/
def getArg (args : List ArgVal) (i : Nat) : ArgVal := args.getD i .other

/-- The scanning loop of `findArg` (lines 107-117): over the given index list
it remembers the first index whose value matches some anti-filter and the
first index whose value matches the filter. -/
def findArgScan (args : List ArgVal) (filter : ArgVal → Bool)
    (antiFilters : List (ArgVal → Bool)) :
    List Nat → Option Nat × Option Nat → Option Nat × Option Nat
  | [], st => st
  | i :: rest, st =>
      let v := getArg args i
      let anti : Option Nat := match st.1 with
        | some a => some a
        | none => if antiFilters.any (fun f => f v) then some i else none
      let found : Option Nat := match st.2 with
        | some f => some f
        | none => if filter v then some i else none
      findArgScan args filter antiFilters rest (anti, found)

/-- `findArg` (lines 99-121): scan positions `0..len` where
`len = index < args.length ? index : args.length`; throw when the first
anti-filter match strictly precedes the first filter match; otherwise return
the matched argument or the default. -/
def findArg (args : List ArgVal) (index : Nat) (defaultValue : ArgVal)
    (filter : ArgVal → Bool) (antiFilters : List (ArgVal → Bool)) :
    Except Unit ArgVal :=
  let len := if index < args.length then index else args.length
  let st := findArgScan args filter antiFilters (List.range (len + 1)) (none, none)
  match st.2, st.1 with
  | some f, some a => if a < f then .error () else .ok (getArg args f)
  | some f, none => .ok (getArg args f)
  | none, _ => .ok defaultValue

/-- Propagation of a thrown argument-order error out of the builder: the
source never catches, so a throw in any `findArg` call aborts the whole
`CustomError` call. -/
def orThrow {α β : Type} (e : Except Unit α) (f : α → Except Unit β) : Except Unit β :=
  match e with
  | .error err => .error err
  | .ok v => f v

@[simp] theorem orThrow_error {α β : Type} (err : Unit) (f : α → Except Unit β) :
    orThrow (.error err) f = .error err := rfl

@[simp] theorem orThrow_ok {α β : Type} (v : α) (f : α → Except Unit β) :
    orThrow (.ok v) f = f v := rfl

/-- Line 24's default for the name slot:
`parent === Error ? 'Error' : parent.prototype.CustomError.name` (the chain's
head descriptor is the parent's own record). -/
def defaultNameFor (parentV : ArgVal) : String :=
  match parentV with
  | .customCtor t => (t.chain.headD defaultDesc).name
  | _ => "Error"

/-- `CustomError(name, parent, properties, factory)` as a type builder
(lines 16-94): normalize the arguments in the source's order (parent,
properties, factory, then name, whose default is the parent's recorded name),
install `rootFactory` on a root type that got no explicit factory (line 28),
and prepend the new descriptor to the parent's chain (lines 76-83). -/
def CustomErrorModel (args : List ArgVal) : Except Unit BuiltType :=
  orThrow (findArg args 1 .errorCtor isParentArg [isPropertiesArg, isFactoryArg])
    fun parentV =>
  orThrow (findArg args 2 (.obj []) isPropertiesArg [isFactoryArg]) fun propsV =>
  orThrow (findArg args 3 (.func .noop) isFactoryArg []) fun factoryV =>
  orThrow (findArg args 0 (.str (defaultNameFor parentV))
      isNameArg [isParentArg, isPropertiesArg, isFactoryArg]) fun nameV =>
  let parent : Option BuiltType := match parentV with
    | .customCtor t => some t
    | _ => none
  let name := match nameV with | .str s => s | _ => ""
  let properties := match propsV with | .obj o => o | _ => []
  let factory0 := match factoryV with | .func f => f | _ => FactoryRef.noop
  let factory := if parent.isNone && factory0 == FactoryRef.noop
    then FactoryRef.rootFactory else factory0
  let parentChain := match parent with | none => [] | some t => t.chain
  .ok ⟨⟨name, properties, factory⟩ :: parentChain⟩

/-- Whether a builder call threw. -/
def isThrow : Except Unit BuiltType → Bool
  | .error _ => true
  | .ok _ => false

def getBuilt (e : Except Unit BuiltType) : BuiltType := e.toOption.getD ⟨[]⟩

/-- `var Err = CustomError('CustomError')` (line 3). -/
def Err : BuiltType := getBuilt (CustomErrorModel [.str "CustomError"])

/-- `Err.order = CustomError(Err, {message: ..., code: 'EOARG'})` (line 4). -/
def ErrOrder : BuiltType := getBuilt (CustomErrorModel
  [.customCtor Err,
   .obj [("message", .str "Arguments out of order."), ("code", .str "EOARG")]])

/-- The observable state of an error instance: its plain data fields, the
`code` and `message` closure variables behind the two accessors
(lines 178-200), and the captured stack as a list of lines (`this.stack` is
their join). -/
structure Instance where
  fields : PropsObj
  code : Val
  message : Val
  stackLines : List String
deriving DecidableEq

def emptyInstance : Instance := ⟨[], .undefined, .undefined, []⟩

/-- The prototype `toString` (lines 86-91): the name of the last chain element
(the root), then a space and the code when truthy, then `': '` and the message
when truthy. -/
def chainToString (chain : List Desc) (code message : Val) : String :=
  let result := (chain.getD (chain.length - 1) defaultDesc).name
  let result := if truthy code then result ++ " " ++ valToString code else result
  if truthy message then result ++ ": " ++ valToString message else result

/-- `stack[0] = s` (line 206). -/
def setLine0 (s : String) : List String → List String
  | [] => [s]
  | _ :: rest => s :: rest

/-- `updateStack` (lines 205-208): rewrite line 0 of the captured stack with
the current `toString()` rendering. -/
def updateStack (chain : List Desc) (inst : Instance) : Instance :=
  { inst with stackLines := setLine0 (chainToString chain inst.code inst.message) inst.stackLines }

/-- The `code` setter (lines 184-187): store the value, then `updateStack`. -/
def setCode (chain : List Desc) (inst : Instance) (v : Val) : Instance :=
  updateStack chain { inst with code := v }

/-- The `message` setter (lines 196-199). -/
def setMessage (chain : List Desc) (inst : Instance) (v : Val) : Instance :=
  updateStack chain { inst with message := v }

/-- Result of copying merged properties onto the instance (lines 156-168). -/
structure CopyResult where
  fields : PropsObj
  code : Val
  message : Val
deriving DecidableEq

/-- Lines 143-168: `code` starts `undefined` and `messageStr` starts `''`; a
`code` key is captured as `properties.code || void 0`, a `message` key as
`properties.message || ''`, and every other key is written onto the
instance. -/
def copyProps (props : PropsObj) : CopyResult :=
  props.foldl
    (fun acc p =>
      if p.1 == "code" then { acc with code := if truthy p.2 then p.2 else .undefined }
      else if p.1 == "message" then { acc with message := if truthy p.2 then p.2 else .str "" }
      else { acc with fields := setKey acc.fields p.1 p.2 })
    ⟨[], .undefined, .str ""⟩

/-- The constructor's second argument: an object, or anything not a truthy
object (collapsed to `none`; line 150 replaces such values with `{}`). -/
abbrev ConfigArg := Option PropsObj

/-- Lines 144-154: the effective stack length, starting from the ambient
`Error.stackTraceLimit` and overridden only by an own, numeric, non-NaN,
non-negative `stackLength`. -/
def resolveStackLength (ambient : Int) (cfg : ConfigArg) : Int :=
  match getKey (cfg.getD []) "stackLength" with
  | some (.num n) => if 0 ≤ n then n else ambient
  | _ => ambient

/-- The host's stack capture `(new Error()).stack.split('\n')` abstracted: it
receives the `Error.stackTraceLimit` in force and produces the lines, or
raises (a user-installed `Error.prepareStackTrace` may throw). -/
abbrev CaptureFn := Int → Except Unit (List String)

/-- `rootFactory` (lines 141-208).  Returns the produced instance, or the
propagated capture exception, together with the value the process-wide
`Error.stackTraceLimit` holds after the call: the limit is raised to
`stackLength + 2` (line 171) and written back (line 175) only on the straight
path after a successful capture. -/
def rootFactoryE (chain : List Desc) (inst0 : Instance) (props : PropsObj)
    (cfg : ConfigArg) (ambient : Int) (capture : CaptureFn) :
    Except Unit Instance × Int :=
  let sl := resolveStackLength ambient cfg
  let cm := copyProps props
  let limit := sl + 2
  match capture limit with
  | .error e => (.error e, limit)
  | .ok raw =>
      let lines := "" :: raw.drop 3
      let inst1 : Instance :=
        { fields := assign inst0.fields cm.fields
          code := cm.code
          message := cm.message
          stackLines := lines }
      (.ok (updateStack chain inst1), ambient)

/-- The ordinary host behaviour of the capture: an `Error` header line
followed by at most `limit` frames (the frames beneath the capture point; the
first two belong to the library's own machinery, which is why line 171 widens
the limit by 2 before line 173 discards three lines). -/
def stdCapture (frames : List String) : CaptureFn :=
  fun limit => .ok ("Error" :: frames.take limit.toNat)

/-- `rootFactory` under the ordinary host capture, which never raises. -/
def rootFactoryRun (chain : List Desc) (inst0 : Instance) (props : PropsObj)
    (cfg : ConfigArg) (ambient : Int) (frames : List String) : Instance × Int :=
  match rootFactoryE chain inst0 props cfg ambient (stdCapture frames) with
  | (.ok inst, amb) => (inst, amb)
  | (.error _, amb) => (emptyInstance, amb)

/-- The constructor's first argument. -/
inductive MsgArg where
  | str (s : String)
  | obj (o : PropsObj)
  | undefined
deriving DecidableEq

/-- Lines 50-51: a string becomes `{message: s}`, a falsy value `{}`. -/
def normalizeMessage : MsgArg → PropsObj
  | .str s => [("message", .str s)]
  | .obj o => o
  | .undefined => []

/-- Lines 53-57: `Object.assign({}, root...leaf defaults, message)` — the
chain is stored leaf first, so the source reverses it before merging and
pushes the message object last. -/
def buildProps (chain : List Desc) (msgObj : PropsObj) : PropsObj :=
  ((chain.reverse.map (fun d => d.properties)) ++ [msgObj]).foldl assign []

/-- Behaviour of user-supplied factories: such a factory may rewrite the
instance arbitrarily from the merged properties and the raw configuration. -/
abbrev UserEnv := Nat → Instance → PropsObj → ConfigArg → Instance

abbrev TraceEntry := FactoryRef × PropsObj × ConfigArg

/-- Dispatch one factory call (`item.factory.call(this, props, configuration)`,
line 63). -/
def applyFactory (env : UserEnv) (chain : List Desc) (f : FactoryRef)
    (inst : Instance) (props : PropsObj) (cfg : ConfigArg)
    (ambient : Int) (frames : List String) : Instance × Int :=
  match f with
  | .noop => (inst, ambient)
  | .rootFactory => rootFactoryRun chain inst props cfg ambient frames
  | .user id => (env id inst props cfg, ambient)

/-- Lines 59-65: `for (i = chain.length - 1; i >= 0; i--)`, calling each
factory that is not the no-op sentinel.  Besides the final instance and the
final ambient stack limit, the list of calls made (factory, properties,
configuration) is recorded in execution order. -/
def runChainLoop (env : UserEnv) (chain : List Desc) (props : PropsObj)
    (cfg : ConfigArg) (frames : List String) :
    Nat → Instance → Int → Instance × Int × List TraceEntry
  | 0, inst, amb => (inst, amb, [])
  | i + 1, inst, amb =>
      let item := chain.getD i defaultDesc
      if item.factory == FactoryRef.noop then
        runChainLoop env chain props cfg frames i inst amb
      else
        let s := applyFactory env chain item.factory inst props cfg amb frames
        let r := runChainLoop env chain props cfg frames i s.1 s.2
        (r.1, r.2.1, (item.factory, props, cfg) :: r.2.2)

/-- The body of a built constructor (lines 31-66): normalize the message,
merge the properties, then run the chain's factories from the root down. -/
def constructBody (env : UserEnv) (t : BuiltType) (msg : MsgArg) (cfg : ConfigArg)
    (ambient : Int) (frames : List String) : Instance × Int × List TraceEntry :=
  let props := buildProps t.chain (normalizeMessage msg)
  runChainLoop env t.chain props cfg frames t.chain.length emptyInstance ambient

/-- How the constructor was entered: through `new`, or as a plain value call
(in which case `this` is not an instance of the constructor). -/
inductive CallMode where
  | newBound
  | plainCall
deriving DecidableEq

/-- Line 38: a plain call falls into `return new construct(message,
configuration)`, re-entering the same body with a proper binding. -/
def constructCall (env : UserEnv) (t : BuiltType) (mode : CallMode) (msg : MsgArg)
    (cfg : ConfigArg) (ambient : Int) (frames : List String) :
    Instance × Int × List TraceEntry :=
  match mode with
  | .plainCall => constructBody env t msg cfg ambient frames
  | .newBound => constructBody env t msg cfg ambient frames

/-- A `new Err.order()` instance as thrown by `findArg` (line 119), under
ordinary host capture. -/
def errOrderInstance : Instance :=
  (constructBody (fun _ inst _ _ => inst) ErrOrder .undefined none 10
    ["    at f0", "    at f1", "    at f2", "    at f3"]).1

/-! ### Lookup lemmas for the association-list object model -/

/-- Priority choice on optional values: the first defined one wins. -/
def firstSome (a b : Option Val) : Option Val :=
  match a with
  | some v => some v
  | none => b

theorem firstSome_assoc (a b c : Option Val) :
    firstSome (firstSome a b) c = firstSome a (firstSome b c) := by
  cases a <;> rfl

theorem firstSome_none_right (a : Option Val) : firstSome a none = a := by
  cases a <;> rfl

@[simp] theorem getKey_nil (k : String) : getKey [] k = none := rfl

theorem foldl_lookup_acc (k : String) (o : PropsObj) :
    ∀ acc : Option Val,
      List.foldl (fun a p => if p.1 == k then some p.2 else a) acc o
        = firstSome (List.foldl (fun a p => if p.1 == k then some p.2 else a) none o) acc := by
  induction o with
  | nil => intro acc; rfl
  | cons p rest ih =>
      intro acc
      simp only [List.foldl_cons]
      rw [ih (if p.1 == k then some p.2 else acc),
        ih (if p.1 == k then some p.2 else none), firstSome_assoc]
      congr 1
      by_cases h : (p.1 == k) = true
      · simp [h, firstSome]
      · simp [h, firstSome]

theorem getKey_cons (p : String × Val) (o : PropsObj) (k : String) :
    getKey (p :: o) k = firstSome (getKey o k) (if p.1 == k then some p.2 else none) := by
  simp only [getKey, List.foldl_cons]
  exact foldl_lookup_acc k o _

theorem getKey_append (a b : PropsObj) (k : String) :
    getKey (a ++ b) k = firstSome (getKey b k) (getKey a k) := by
  simp only [getKey, List.foldl_append]
  exact foldl_lookup_acc k b _

theorem getKey_of_not_any {o : PropsObj} {k : String}
    (h : o.any (fun p => p.1 == k) = false) : getKey o k = none := by
  induction o with
  | nil => rfl
  | cons p rest ih =>
      simp only [List.any_cons, Bool.or_eq_false_iff] at h
      rw [getKey_cons, ih h.2, h.1]
      rfl

theorem getKey_map_replace_of_not_any {o : PropsObj} {k : String} (v : Val)
    (h : o.any (fun p => p.1 == k) = false) :
    getKey (o.map (fun p => if p.1 == k then (k, v) else p)) k = none := by
  induction o with
  | nil => rfl
  | cons p rest ih =>
      simp only [List.any_cons, Bool.or_eq_false_iff] at h
      simp only [List.map_cons]
      rw [getKey_cons, ih h.2]
      simp [h.1, firstSome]

theorem getKey_map_replace_of_any {o : PropsObj} {k : String} (v : Val)
    (h : o.any (fun p => p.1 == k) = true) :
    getKey (o.map (fun p => if p.1 == k then (k, v) else p)) k = some v := by
  induction o with
  | nil => simp at h
  | cons p rest ih =>
      simp only [List.map_cons]
      rw [getKey_cons]
      cases hr : rest.any (fun p => p.1 == k) with
      | true => rw [ih hr]; rfl
      | false =>
          have hp : (p.1 == k) = true := by
            simp only [List.any_cons, hr, Bool.or_false] at h
            exact h
          rw [getKey_map_replace_of_not_any v hr]
          simp [hp, firstSome]

theorem getKey_map_replace_ne {o : PropsObj} {k q : String} (v : Val)
    (h : (k == q) = false) :
    getKey (o.map (fun p => if p.1 == k then (k, v) else p)) q = getKey o q := by
  induction o with
  | nil => rfl
  | cons p rest ih =>
      simp only [List.map_cons]
      rw [getKey_cons, ih, getKey_cons]
      congr 1
      by_cases hp : (p.1 == k) = true
      · have hpk : p.1 = k := eq_of_beq hp
        simp [hp, hpk, h]
      · simp [hp]

theorem getKey_setKey_self (o : PropsObj) (k : String) (v : Val) :
    getKey (setKey o k v) k = some v := by
  unfold setKey
  cases h : o.any (fun p => p.1 == k) with
  | true => simp only [h, if_true]; exact getKey_map_replace_of_any v h
  | false =>
      simp only [h, Bool.false_eq_true, if_false]
      rw [getKey_append, getKey_cons]
      simp [firstSome]

theorem getKey_setKey_ne (o : PropsObj) (k q : String) (v : Val)
    (h : (k == q) = false) : getKey (setKey o k v) q = getKey o q := by
  unfold setKey
  cases ha : o.any (fun p => p.1 == k) with
  | true => simp only [ha, if_true]; exact getKey_map_replace_ne v h
  | false =>
      simp only [ha, Bool.false_eq_true, if_false]
      rw [getKey_append, getKey_cons]
      simp [h, firstSome]

theorem getKey_assign (b : PropsObj) : ∀ (a : PropsObj) (k : String),
    getKey (assign a b) k = firstSome (getKey b k) (getKey a k) := by
  induction b with
  | nil => intro a k; rfl
  | cons p rest ih =>
      intro a k
      show getKey (List.foldl (fun t q => setKey t q.1 q.2) (setKey a p.1 p.2) rest) k = _
      rw [show List.foldl (fun t q => setKey t q.1 q.2) (setKey a p.1 p.2) rest
            = assign (setKey a p.1 p.2) rest from rfl]
      rw [ih, getKey_cons, firstSome_assoc]
      congr 1
      by_cases hp : (p.1 == k) = true
      · have hpk : p.1 = k := eq_of_beq hp
        rw [hpk, getKey_setKey_self]
        simp [hp, firstSome]
      · have hp' : (p.1 == k) = false := by
          cases hb : (p.1 == k) <;> simp [hb] at hp ⊢
        rw [getKey_setKey_ne a p.1 k p.2 hp']
        simp [hp', firstSome]

/-- Lookup across a priority list of objects: the first object that defines
the key supplies the value (used to state the merge semantics the spec
describes: call-site message first, then leaf to root defaults). -/
def lookupFirst (objs : List PropsObj) (k : String) : Option Val :=
  match objs with
  | [] => none
  | o :: rest => firstSome (getKey o k) (lookupFirst rest k)

theorem lookupFirst_append (k : String) :
    ∀ l₁ l₂ : List PropsObj,
      lookupFirst (l₁ ++ l₂) k = firstSome (lookupFirst l₁ k) (lookupFirst l₂ k)
  | [], _ => rfl
  | o :: rest, l₂ => by
      show firstSome (getKey o k) (lookupFirst (rest ++ l₂) k) = _
      rw [lookupFirst_append k rest l₂, ← firstSome_assoc]
      rfl

theorem getKey_foldl_assign (k : String) :
    ∀ (objs : List PropsObj) (a : PropsObj),
      getKey (objs.foldl assign a) k
        = firstSome (lookupFirst objs.reverse k) (getKey a k) := by
  intro objs
  induction objs with
  | nil => intro a; rfl
  | cons o rest ih =>
      intro a
      show getKey (rest.foldl assign (assign a o)) k = _
      rw [ih, getKey_assign, List.reverse_cons, lookupFirst_append]
      rw [show lookupFirst [o] k = firstSome (getKey o k) none from rfl,
        firstSome_none_right, firstSome_assoc]

/-- C1: the merged property set of an instance equals the fold of the chain's
default properties from root to leaf followed by the per-call message object;
equivalently, a key resolves to the message's value if present, else the
leaf-most default that defines it.  The spec's concrete example is included:
root `{x:1,y:1}`, A `{y:2}`, B `{y:3}` and message `{y:4,z:9}` merge to
`{x:1,y:4,z:9}`. -/
theorem C1_property_merge :
    (∀ (chain : List Desc) (msgObj : PropsObj) (k : String),
       getKey (buildProps chain msgObj) k
         = lookupFirst (msgObj :: chain.map (fun d => d.properties)) k)
    ∧ buildProps
        [⟨"B", [("y", .num 3)], .noop⟩, ⟨"A", [("y", .num 2)], .noop⟩,
         ⟨"Root", [("x", .num 1), ("y", .num 1)], .rootFactory⟩]
        [("y", .num 4), ("z", .num 9)]
      = [("x", .num 1), ("y", .num 4), ("z", .num 9)] := by
  constructor
  · intro chain msgObj k
    unfold buildProps
    rw [getKey_foldl_assign, getKey_nil, firstSome_none_right]
    congr 1
    rw [List.reverse_append, List.reverse_cons, List.reverse_nil, List.nil_append,
      List.map_reverse, List.reverse_reverse, List.singleton_append]
  · decide

/-! ### The factory-invocation order (C2) -/

/-- Example hierarchy: a root type and a middle type that both carry
user-supplied initializers, built through the classifier. -/
def exRoot : BuiltType := getBuilt (CustomErrorModel [.str "Root", .func (.user 0)])

def exA : BuiltType := getBuilt (CustomErrorModel [.str "A", .customCtor exRoot, .func (.user 1)])

def exB : BuiltType := getBuilt (CustomErrorModel [.str "B", .customCtor exA])

theorem runChainLoop_trace (env : UserEnv) (chain : List Desc) (props : PropsObj)
    (cfg : ConfigArg) (frames : List String) :
    ∀ (i : Nat), i ≤ chain.length → ∀ (inst : Instance) (amb : Int),
      (runChainLoop env chain props cfg frames i inst amb).2.2
        = ((chain.take i).reverse.filter (fun d => d.factory != FactoryRef.noop)).map
            (fun d => (d.factory, props, cfg)) := by
  intro i
  induction i with
  | zero => intro _ inst amb; rfl
  | succ i ih =>
      intro hle inst amb
      have hi : i < chain.length := hle
      have hgd : chain.getD i defaultDesc = chain[i] := by
        rw [List.getD_eq_getElem?_getD, List.getElem?_eq_getElem hi]
        rfl
      have htake : chain.take (i + 1) = chain.take i ++ [chain[i]] := by
        rw [List.take_succ, List.getElem?_eq_getElem hi]
        rfl
      rw [htake, List.reverse_append, List.reverse_cons, List.reverse_nil, List.nil_append,
        List.singleton_append, List.filter_cons]
      simp only [runChainLoop, hgd]
      by_cases hf : (chain[i].factory == FactoryRef.noop) = true
      · have hbne : (chain[i].factory != FactoryRef.noop) = false := by
          simp [bne, hf]
        rw [if_pos hf, hbne]
        simp only [Bool.false_eq_true, if_false]
        exact ih (Nat.le_of_lt hi) inst amb
      · have hbne : (chain[i].factory != FactoryRef.noop) = true := by
          simp [bne]
          simpa using hf
        rw [if_neg hf, hbne]
        simp only [if_true, List.map_cons]
        congr 1
        exact ih (Nat.le_of_lt hi) _ _

/-- C2: instance construction calls the chain's factories in root-to-leaf
order (the loop walks the leaf-first chain backwards), passing each the merged
properties object and the raw configuration, and skips exactly the descriptors
whose factory is the no-op sentinel.  The spec's concrete example is included:
for `Root -> A -> B` with initializers on `Root` and `A`, constructing a `B`
runs `Root`'s initializer before `A`'s. -/
theorem C2_initializer_order :
    (∀ (env : UserEnv) (t : BuiltType) (msg : MsgArg) (cfg : ConfigArg)
       (ambient : Int) (frames : List String),
       (constructBody env t msg cfg ambient frames).2.2
         = ((t.chain.reverse.filter (fun d => d.factory != FactoryRef.noop)).map
             (fun d => (d.factory, buildProps t.chain (normalizeMessage msg), cfg))))
    ∧ (constructBody (fun _ inst _ _ => inst) exB .undefined none 10 []).2.2
        = [(FactoryRef.user 0, [], none), (FactoryRef.user 1, [], none)] := by
  constructor
  · intro env t msg cfg ambient frames
    unfold constructBody
    rw [runChainLoop_trace env t.chain _ cfg frames t.chain.length le_rfl, List.take_length]
  · decide

/-! ### `toString` uses the root name (C3) -/

theorem getD_last (d : Desc) : ∀ rest : List Desc,
    (d :: rest).getD rest.length defaultDesc = rest.getLastD d
  | [] => rfl
  | r :: rs => by
      show (r :: rs).getD rs.length defaultDesc = _
      rw [getD_last r rs, List.getLastD_cons]

/-- C3: `toString()` renders the name of the chain's last descriptor (the
root, not the leaf), then a space and the code when present, then `': '` and
the message when present.  The spec's example is included: root `"Error"`,
leaf `"NotFoundError"`, code `"E404"`, message `"missing"` renders
`"Error E404: missing"`. -/
theorem C3_toString_root_name :
    (∀ (d : Desc) (rest : List Desc) (code message : Val),
       chainToString (d :: rest) code message
         = (rest.getLastD d).name
           ++ (if truthy code then " " ++ valToString code else "")
           ++ (if truthy message then ": " ++ valToString message else ""))
    ∧ chainToString [⟨"NotFoundError", [], .noop⟩, ⟨"Error", [], .rootFactory⟩]
        (.str "E404") (.str "missing") = "Error E404: missing" := by
  constructor
  · intro d rest code message
    unfold chainToString
    have hlen : (d :: rest).length - 1 = rest.length := by simp
    rw [hlen, getD_last]
    cases hc : truthy code <;> cases hm : truthy message <;>
      simp [String.append_assoc]
  · decide

/-! ### Setters re-render the stack's first line (C5) -/

theorem setLine0_eq (s : String) (l : List String) : setLine0 s l = s :: l.tail := by
  cases l <;> rfl

/-- C5: assigning `code` or `message` after construction rewrites line 0 of
the stack representation to the instance's current `toString()` value and
leaves every subsequent line unchanged. -/
theorem C5_setter_stack_head :
    ∀ (chain : List Desc) (inst : Instance) (v : Val),
      ((setCode chain inst v).stackLines
         = chainToString chain v inst.message :: inst.stackLines.tail)
      ∧ ((setMessage chain inst v).stackLines
         = chainToString chain inst.code v :: inst.stackLines.tail) := by
  intro chain inst v
  constructor <;> simp [setCode, setMessage, updateStack, setLine0_eq]

/-! ### The root factory: stack length, falsy normalization, limit restore -/

/-- Under the ordinary host capture the root factory reduces to a straight
computation: properties copied, the captured frames truncated at
`stackLength + 2` with the header and the two machinery frames discarded, and
the ambient limit restored. -/
theorem rootFactoryRun_eq (chain : List Desc) (inst0 : Instance) (props : PropsObj)
    (cfg : ConfigArg) (ambient : Int) (frames : List String) :
    rootFactoryRun chain inst0 props cfg ambient frames
      = (updateStack chain
          { fields := assign inst0.fields (copyProps props).fields
            code := (copyProps props).code
            message := (copyProps props).message
            stackLines := "" :: (frames.take (resolveStackLength ambient cfg + 2).toNat).drop 2 },
         ambient) := rfl

theorem resolveStackLength_valid {cfg : ConfigArg} {n : Int}
    (h : getKey (cfg.getD []) "stackLength" = some (.num n)) (hn : 0 ≤ n)
    (ambient : Int) : resolveStackLength ambient cfg = n := by
  unfold resolveStackLength
  rw [h]
  simp [hn]

theorem resolveStackLength_invalid {cfg : ConfigArg}
    (h : ∀ n : Int, getKey (cfg.getD []) "stackLength" = some (.num n) → n < 0)
    (ambient : Int) : resolveStackLength ambient cfg = ambient := by
  unfold resolveStackLength
  cases hg : getKey (cfg.getD []) "stackLength" with
  | none => rfl
  | some v =>
      cases v with
      | num n =>
          have hneg := h n hg
          show (if 0 ≤ n then n else ambient) = ambient
          rw [if_neg (by omega)]
      | str s => rfl
      | nan => rfl
      | bool b => rfl
      | undefined => rfl

/-- C6: a present, numeric, non-NaN, non-negative `instanceConfig.stackLength`
bounds the number of retained frames (the lines after the header line); any
other value is silently ignored, the run being identical to one with no
configuration at all (so the ambient process-wide depth applies). -/
theorem C6_stack_length :
    ∀ (chain : List Desc) (inst0 : Instance) (props : PropsObj) (cfg : ConfigArg)
      (ambient : Int) (frames : List String),
      (∀ n : Int, getKey (cfg.getD []) "stackLength" = some (.num n) → 0 ≤ n →
        (rootFactoryRun chain inst0 props cfg ambient frames).1.stackLines.tail.length
          ≤ n.toNat)
      ∧ ((∀ n : Int, getKey (cfg.getD []) "stackLength" = some (.num n) → n < 0) →
        rootFactoryRun chain inst0 props cfg ambient frames
          = rootFactoryRun chain inst0 props none ambient frames) := by
  intro chain inst0 props cfg ambient frames
  constructor
  · intro n hg hn
    rw [rootFactoryRun_eq, resolveStackLength_valid hg hn]
    simp only [updateStack, setLine0, List.tail_cons, List.length_drop, List.length_take]
    omega
  · intro h
    rw [rootFactoryRun_eq, rootFactoryRun_eq, resolveStackLength_invalid h]
    rfl

def wFrames : List String := ["a", "b", "c", "d", "e", "f", "g", "h"]

theorem C6_witness :
    ((rootFactoryRun [] emptyInstance [] (some [("stackLength", Val.num 5)]) 10
        wFrames).1.stackLines.tail.length ≤ (5 : Int).toNat)
    ∧ rootFactoryRun [] emptyInstance [] (some [("stackLength", Val.str "soon")]) 10 wFrames
        = rootFactoryRun [] emptyInstance [] none 10 wFrames := by
  constructor
  · exact (C6_stack_length [] emptyInstance [] (some [("stackLength", Val.num 5)]) 10
      wFrames).1 5 (by decide) (by decide)
  · refine (C6_stack_length [] emptyInstance [] (some [("stackLength", Val.str "soon")]) 10
      wFrames).2 ?_
    intro n h
    have h' : (Val.str "soon") = Val.num n := Option.some.inj h
    cases h'

theorem copyProps_fold_code : ∀ (props : PropsObj) (acc : CopyResult),
    (props.foldl
      (fun acc p =>
        if p.1 == "code" then { acc with code := if truthy p.2 then p.2 else .undefined }
        else if p.1 == "message" then { acc with message := if truthy p.2 then p.2 else .str "" }
        else { acc with fields := setKey acc.fields p.1 p.2 })
      acc).code
      = match getKey props "code" with
        | some v => if truthy v then v else Val.undefined
        | none => acc.code := by
  intro props
  induction props with
  | nil => intro acc; rfl
  | cons p rest ih =>
      intro acc
      simp only [List.foldl_cons]
      rw [ih, getKey_cons]
      cases hr : getKey rest "code" with
      | some v => rfl
      | none =>
          by_cases hc : (p.1 == "code") = true
          · simp [hc, firstSome]
          · by_cases hm : (p.1 == "message") = true
            · simp [hc, hm, firstSome]
            · simp [hc, hm, firstSome]

theorem copyProps_fold_message : ∀ (props : PropsObj) (acc : CopyResult),
    (props.foldl
      (fun acc p =>
        if p.1 == "code" then { acc with code := if truthy p.2 then p.2 else .undefined }
        else if p.1 == "message" then { acc with message := if truthy p.2 then p.2 else .str "" }
        else { acc with fields := setKey acc.fields p.1 p.2 })
      acc).message
      = match getKey props "message" with
        | some v => if truthy v then v else Val.str ""
        | none => acc.message := by
  intro props
  induction props with
  | nil => intro acc; rfl
  | cons p rest ih =>
      intro acc
      simp only [List.foldl_cons]
      rw [ih, getKey_cons]
      cases hr : getKey rest "message" with
      | some v => rfl
      | none =>
          by_cases hc : (p.1 == "code") = true
          · have : (p.1 == "message") = false := by
              have := eq_of_beq hc
              simp [this]
            simp [hc, this, firstSome]
          · by_cases hm : (p.1 == "message") = true
            · simp [hc, hm, firstSome]
            · simp [hc, hm, firstSome]

/-- C10: the root factory normalizes a falsy merged `code` to `undefined` and
a falsy merged `message` to the empty string, so `toString()` on such an
instance omits both segments even though the keys were present in the merged
properties. -/
theorem C10_falsy_normalization :
    ∀ (chain : List Desc) (inst0 : Instance) (props : PropsObj) (cfg : ConfigArg)
      (ambient : Int) (frames : List String) (c m : Val),
      getKey props "code" = some c → truthy c = false →
      getKey props "message" = some m → truthy m = false →
      ((rootFactoryRun chain inst0 props cfg ambient frames).1.code = Val.undefined
       ∧ (rootFactoryRun chain inst0 props cfg ambient frames).1.message = Val.str ""
       ∧ chainToString chain (rootFactoryRun chain inst0 props cfg ambient frames).1.code
           (rootFactoryRun chain inst0 props cfg ambient frames).1.message
           = (chain.getD (chain.length - 1) defaultDesc).name) := by
  intro chain inst0 props cfg ambient frames c m hc hcf hm hmf
  have hcode : (rootFactoryRun chain inst0 props cfg ambient frames).1.code = Val.undefined := by
    rw [rootFactoryRun_eq]
    show (copyProps props).code = Val.undefined
    unfold copyProps
    rw [copyProps_fold_code, hc]
    simp [hcf]
  have hmsg : (rootFactoryRun chain inst0 props cfg ambient frames).1.message = Val.str "" := by
    rw [rootFactoryRun_eq]
    show (copyProps props).message = Val.str ""
    unfold copyProps
    rw [copyProps_fold_message, hm]
    simp [hmf]
  refine ⟨hcode, hmsg, ?_⟩
  rw [hcode, hmsg]
  rfl

theorem C10_witness :
    (rootFactoryRun [⟨"Root", [], .rootFactory⟩] emptyInstance
        [("code", Val.num 0), ("message", Val.str "")] none 10 wFrames).1.code = Val.undefined
    ∧ (rootFactoryRun [⟨"Root", [], .rootFactory⟩] emptyInstance
        [("code", Val.num 0), ("message", Val.str "")] none 10 wFrames).1.message = Val.str ""
    ∧ chainToString [⟨"Root", [], .rootFactory⟩]
        (rootFactoryRun [⟨"Root", [], .rootFactory⟩] emptyInstance
          [("code", Val.num 0), ("message", Val.str "")] none 10 wFrames).1.code
        (rootFactoryRun [⟨"Root", [], .rootFactory⟩] emptyInstance
          [("code", Val.num 0), ("message", Val.str "")] none 10 wFrames).1.message
      = "Root" := by
  have h := C10_falsy_normalization [⟨"Root", [], .rootFactory⟩] emptyInstance
    [("code", Val.num 0), ("message", Val.str "")] none 10 wFrames
    (Val.num 0) (Val.str "") (by decide) (by decide) (by decide) (by decide)
  exact ⟨h.1, h.2.1, h.2.2.trans rfl⟩

/-- C7 (amended): the root factory raises the process-wide limit to the
requested depth plus 2 and writes the prior value back when the capture step
returns normally; when the capture step itself raises, the error propagates
and the limit is left at the widened value (there is no exception-scoped
restore in the source). -/
theorem C7_amended_restore :
    ∀ (chain : List Desc) (inst0 : Instance) (props : PropsObj) (cfg : ConfigArg)
      (ambient : Int),
      (∀ (capture : CaptureFn) (lines : List String),
         capture (resolveStackLength ambient cfg + 2) = .ok lines →
         (rootFactoryE chain inst0 props cfg ambient capture).2 = ambient)
      ∧ (rootFactoryE chain inst0 props cfg ambient (fun _ => .error ())).2
          = resolveStackLength ambient cfg + 2 := by
  intro chain inst0 props cfg ambient
  constructor
  · intro capture lines h
    simp only [rootFactoryE, h]
  · rfl

/-- C7 counterexample to the claim as stated: with ambient depth 10 and a
requested `stackLength` of 5, a capture step that raises leaves the ambient
depth at 7, not the prior 10 — the restore is skipped on the exceptional exit
path. -/
theorem C7_counterexample :
    rootFactoryE [] emptyInstance [] (some [("stackLength", Val.num 5)]) 10
        (fun _ => .error ()) = (.error (), 7)
    ∧ (7 : Int) ≠ 10 :=
  ⟨rfl, by decide⟩

theorem C7_witness :
    (rootFactoryE [] emptyInstance [] (some [("stackLength", Val.num 5)]) 10
        (stdCapture ["x"])).2 = 10 :=
  (C7_amended_restore [] emptyInstance [] (some [("stackLength", Val.num 5)]) 10).1
    (stdCapture ["x"]) ["Error", "x"] rfl

/-- C8: invoking a built constructor as a plain value call yields exactly the
state produced by `new`-style construction with the same arguments (line 38
re-enters the constructor through `new`). -/
theorem C8_plain_call_equiv :
    ∀ (env : UserEnv) (t : BuiltType) (msg : MsgArg) (cfg : ConfigArg)
      (ambient : Int) (frames : List String),
      constructCall env t .plainCall msg cfg ambient frames
        = constructCall env t .newBound msg cfg ambient frames := by
  intro env t msg cfg ambient frames
  rfl

/-! ### The argument-order error (C4) -/

/-- First scanned position whose value satisfies `p`; the scan window of a
slot with canonical index `index` covers positions `0..min(index, length)`. -/
def firstHit (args : List ArgVal) (index : Nat) (p : ArgVal → Bool) : Option Nat :=
  let len := if index < args.length then index else args.length
  (List.range (len + 1)).find? (fun i => p (getArg args i))

/-- Out-of-order within one slot's scan window: some position matching an
anti-filter strictly precedes the first position matching the slot's own
predicate. -/
def outOfOrderSlot (args : List ArgVal) (index : Nat) (filter : ArgVal → Bool)
    (antiFilters : List (ArgVal → Bool)) : Bool :=
  match firstHit args index (fun v => antiFilters.any (fun f => f v)),
      firstHit args index filter with
  | some a, some f => decide (a < f)
  | _, _ => false

/-- The canonical slot predicates in canonical order: name, parent,
properties, factory. -/
def slotPred : Nat → ArgVal → Bool
  | 0, v => isNameArg v
  | 1, v => isParentArg v
  | 2, v => isPropertiesArg v
  | 3, v => isFactoryArg v
  | _ + 4, _ => false

/-- The condition of claim C4 read over raw argument positions: some value
matching a later canonical slot's predicate sits at an earlier position than
a position where an earlier slot's predicate matches. -/
def specOutOfOrder (args : List ArgVal) : Bool :=
  (List.range args.length).any (fun j =>
    (List.range j).any (fun i =>
      (List.range 4).any (fun s' =>
        (List.range s').any (fun s =>
          slotPred s' (getArg args i) && slotPred s (getArg args j)))))

theorem findArgScan_fst (args : List ArgVal) (filter : ArgVal → Bool)
    (antiFilters : List (ArgVal → Bool)) :
    ∀ (is : List Nat) (st : Option Nat × Option Nat),
      (findArgScan args filter antiFilters is st).1
        = match st.1 with
          | some a => some a
          | none => is.find? (fun i => antiFilters.any (fun f => f (getArg args i))) := by
  intro is
  induction is with
  | nil =>
      intro st
      cases h : st.1 <;> simp [findArgScan, h]
  | cons i rest ih =>
      intro st
      simp only [findArgScan]
      rw [ih]
      cases hs : st.1 with
      | some a => simp
      | none =>
          by_cases h : antiFilters.any (fun f => f (getArg args i)) = true
          · simp only [h, if_true]
            rw [List.find?_cons_of_pos rest h]
          · have h' : antiFilters.any (fun f => f (getArg args i)) = false := by
              simpa using h
            simp only [h', Bool.false_eq_true, if_false]
            rw [List.find?_cons_of_neg rest (by simp [h'])]

theorem findArgScan_snd (args : List ArgVal) (filter : ArgVal → Bool)
    (antiFilters : List (ArgVal → Bool)) :
    ∀ (is : List Nat) (st : Option Nat × Option Nat),
      (findArgScan args filter antiFilters is st).2
        = match st.2 with
          | some f => some f
          | none => is.find? (fun i => filter (getArg args i)) := by
  intro is
  induction is with
  | nil =>
      intro st
      cases h : st.2 <;> simp [findArgScan, h]
  | cons i rest ih =>
      intro st
      simp only [findArgScan]
      rw [ih]
      cases hs : st.2 with
      | some f => simp
      | none =>
          by_cases h : filter (getArg args i) = true
          · simp only [h, if_true]
            rw [List.find?_cons_of_pos rest h]
          · have h' : filter (getArg args i) = false := by simpa using h
            simp only [h', Bool.false_eq_true, if_false]
            rw [List.find?_cons_of_neg rest (by simp [h'])]

theorem findArg_error_iff (args : List ArgVal) (index : Nat) (defaultValue : ArgVal)
    (filter : ArgVal → Bool) (antiFilters : List (ArgVal → Bool)) :
    findArg args index defaultValue filter antiFilters = .error ()
      ↔ outOfOrderSlot args index filter antiFilters = true := by
  simp only [findArg, outOfOrderSlot, firstHit]
  rw [findArgScan_fst, findArgScan_snd]
  cases hA : (List.range ((if index < args.length then index else args.length) + 1)).find?
      (fun i => antiFilters.any (fun f => f (getArg args i))) <;>
    cases hF : (List.range ((if index < args.length then index else args.length) + 1)).find?
      (fun i => filter (getArg args i)) <;>
    simp only []
  · simp
  · simp
  · simp
  · rename_i a f
    by_cases hlt : a < f
    · simp [hlt]
    · simp [hlt]

theorem outOfOrderSlot_nil_antis (args : List ArgVal) (index : Nat)
    (filter : ArgVal → Bool) :
    outOfOrderSlot args index filter [] = false := by
  unfold outOfOrderSlot firstHit
  rw [List.find?_eq_none.mpr (by intro x hx; simp)]

theorem isThrow_of_parent (args : List ArgVal)
    (h : findArg args 1 .errorCtor isParentArg [isPropertiesArg, isFactoryArg] = .error ()) :
    isThrow (CustomErrorModel args) = true := by
  unfold CustomErrorModel
  rw [h]
  rfl

theorem isThrow_of_props (args : List ArgVal)
    (h : findArg args 2 (.obj []) isPropertiesArg [isFactoryArg] = .error ()) :
    isThrow (CustomErrorModel args) = true := by
  unfold CustomErrorModel
  cases h1 : findArg args 1 .errorCtor isParentArg [isPropertiesArg, isFactoryArg] with
  | error e => rfl
  | ok parentV =>
      rw [orThrow_ok, h]
      rfl

theorem isThrow_of_name (args : List ArgVal)
    (h : outOfOrderSlot args 0 isNameArg [isParentArg, isPropertiesArg, isFactoryArg] = true) :
    isThrow (CustomErrorModel args) = true := by
  unfold CustomErrorModel
  cases h1 : findArg args 1 .errorCtor isParentArg [isPropertiesArg, isFactoryArg] with
  | error e => rfl
  | ok parentV =>
      rw [orThrow_ok]
      cases h2 : findArg args 2 (.obj []) isPropertiesArg [isFactoryArg] with
      | error e => rfl
      | ok propsV =>
          rw [orThrow_ok]
          cases h3 : findArg args 3 (.func .noop) isFactoryArg [] with
          | error e => rfl
          | ok factoryV =>
              rw [orThrow_ok,
                (findArg_error_iff args 0 (ArgVal.str (defaultNameFor parentV))
                  isNameArg [isParentArg, isPropertiesArg, isFactoryArg]).mpr h]
              rfl

/-- C4 (amended): the classifier throws whenever, within a slot's scan window
(positions `0..min(slot index, argument count)`), a value matching a
later-slot predicate strictly precedes the first position matching the slot's
own predicate; and the thrown kind's instances carry code `"EOARG"`.  An
earlier-slot value placed beyond the slot's window (e.g. a name string after a
properties object) does not trigger the error — see the counterexample. -/
theorem C4_amended_order_throw :
    (∀ args : List ArgVal,
       (outOfOrderSlot args 1 isParentArg [isPropertiesArg, isFactoryArg]
         || outOfOrderSlot args 2 isPropertiesArg [isFactoryArg]
         || outOfOrderSlot args 3 isFactoryArg []
         || outOfOrderSlot args 0 isNameArg [isParentArg, isPropertiesArg, isFactoryArg])
         = true →
       isThrow (CustomErrorModel args) = true)
    ∧ errOrderInstance.code = Val.str "EOARG" := by
  constructor
  · intro args h
    simp only [Bool.or_eq_true] at h
    rcases h with ((h | h) | h) | h
    · exact isThrow_of_parent args ((findArg_error_iff args 1 _ isParentArg _).mpr h)
    · exact isThrow_of_props args ((findArg_error_iff args 2 _ isPropertiesArg _).mpr h)
    · rw [outOfOrderSlot_nil_antis] at h
      cases h
    · exact isThrow_of_name args h
  · decide

/-- C4 counterexample: in `CustomError({x:1}, 'Name')` a properties-typed
value precedes the position where the name predicate matches — the claim's
condition holds — yet the call does not throw: the name slot's scan window is
position 0 only, so the misplaced string is silently ignored. -/
theorem C4_counterexample :
    specOutOfOrder [.obj [("x", Val.num 1)], .str "Name"] = true
    ∧ isThrow (CustomErrorModel [.obj [("x", Val.num 1)], .str "Name"]) = false := by
  constructor <;> decide

theorem C4_witness :
    isThrow (CustomErrorModel [.obj [("x", Val.num 1)], .errorCtor]) = true :=
  C4_amended_order_throw.1 [.obj [("x", Val.num 1)], .errorCtor] (by decide)

/-! ### Aliasing: the merge never mutates its source objects (C9) -/

/-- A heap of JS objects; references are indices.  It makes the aliasing of
line 57 explicit: `Object.assign` mutates only its target, and the target the
source passes (line 56's `unshift({})`) is a freshly allocated object. -/
structure Store where
  objs : List PropsObj
deriving DecidableEq

def Store.get (st : Store) (r : Nat) : PropsObj := st.objs.getD r []

def Store.set (st : Store) (r : Nat) (o : PropsObj) : Store := ⟨st.objs.set r o⟩

theorem getD_set_ne : ∀ (l : List PropsObj) (i j : Nat) (v : PropsObj), i ≠ j →
    (l.set i v).getD j [] = l.getD j []
  | [], _, _, _, _ => rfl
  | _ :: _, 0, 0, _, h => absurd rfl h
  | _ :: _, 0, _ + 1, _, _ => rfl
  | _ :: _, _ + 1, 0, _, _ => rfl
  | _ :: tl, i + 1, j + 1, v, h =>
      getD_set_ne tl i j v (fun hh => h (by rw [hh]))

theorem getD_set_self : ∀ (l : List PropsObj) (i : Nat) (v : PropsObj), i < l.length →
    (l.set i v).getD i [] = v
  | [], _, _, h => absurd h (by simp)
  | _ :: _, 0, _, _ => rfl
  | _ :: tl, i + 1, v, h => getD_set_self tl i v (Nat.lt_of_succ_lt_succ h)

theorem getD_append_left : ∀ (a b : List PropsObj) (i : Nat), i < a.length →
    (a ++ b).getD i [] = a.getD i []
  | [], _, _, h => absurd h (by simp)
  | _ :: _, _, 0, _ => rfl
  | _ :: tl, b, i + 1, h => getD_append_left tl b i (Nat.lt_of_succ_lt_succ h)

theorem getD_append_length : ∀ (a : List PropsObj) (x : PropsObj),
    (a ++ [x]).getD a.length [] = x
  | [], _ => rfl
  | _ :: tl, x => getD_append_length tl x

theorem store_get_set_ne (st : Store) (t r : Nat) (o : PropsObj) (h : r ≠ t) :
    (st.set t o).get r = st.get r :=
  getD_set_ne st.objs t r o (fun hh => h hh.symm)

theorem store_get_set_self (st : Store) (t : Nat) (o : PropsObj)
    (h : t < st.objs.length) : (st.set t o).get t = o :=
  getD_set_self st.objs t o h

/-- `Object.assign(target, ...srcs)` acting on the heap: read each source in
order and fold it into the target object. -/
def assignRefs (t : Nat) : Store → List Nat → Store
  | st, [] => st
  | st, r :: rest => assignRefs t (st.set t (assign (st.get t) (st.get r))) rest

theorem assignRefs_get_ne (t : Nat) : ∀ (srcs : List Nat) (st : Store) (r : Nat), r ≠ t →
    (assignRefs t st srcs).get r = st.get r
  | [], _, _, _ => rfl
  | r0 :: rest, st, r, h => by
      show (assignRefs t (st.set t (assign (st.get t) (st.get r0))) rest).get r = _
      rw [assignRefs_get_ne t rest _ r h, store_get_set_ne st t r _ h]

theorem foldl_assign_congr : ∀ (l : List Nat) (F G : Nat → PropsObj) (a : PropsObj),
    (∀ r ∈ l, F r = G r) →
    l.foldl (fun acc r => assign acc (F r)) a = l.foldl (fun acc r => assign acc (G r)) a
  | [], _, _, _, _ => rfl
  | r :: rest, F, G, a, h => by
      simp only [List.foldl_cons]
      rw [h r (List.mem_cons_self r rest),
        foldl_assign_congr rest F G _ (fun x hx => h x (List.mem_cons_of_mem _ hx))]

theorem assignRefs_get_self (t : Nat) : ∀ (srcs : List Nat) (st : Store),
    t < st.objs.length → (∀ r ∈ srcs, r ≠ t) →
    (assignRefs t st srcs).get t
      = srcs.foldl (fun acc r => assign acc (st.get r)) (st.get t)
  | [], _, _, _ => rfl
  | r0 :: rest, st, ht, hs => by
      have h0 : r0 ≠ t := hs r0 (List.mem_cons_self r0 rest)
      have ht' : t < (st.set t (assign (st.get t) (st.get r0))).objs.length := by
        simpa [Store.set] using ht
      show (assignRefs t (st.set t (assign (st.get t) (st.get r0))) rest).get t = _
      rw [assignRefs_get_self t rest _ ht' (fun r hr => hs r (List.mem_cons_of_mem _ hr))]
      rw [store_get_set_self st t _ ht]
      simp only [List.foldl_cons]
      exact foldl_assign_congr rest _ _ _
        (fun r hr => store_get_set_ne st t r _ (hs r (List.mem_cons_of_mem _ hr)))

/-- Lines 53-57 with aliasing made explicit: build the argument array from
the chain's property references (reversed to root-first), push the message
reference, unshift a freshly allocated empty target, and `Object.assign` into
that target. -/
def buildPropsRef (st : Store) (chainRefs : List Nat) (msgRef : Nat) : Store × Nat :=
  (assignRefs st.objs.length ⟨st.objs ++ [[]]⟩ (chainRefs.reverse ++ [msgRef]),
   st.objs.length)

/-- C9: instance construction builds the merged property set on a fresh
object; every pre-existing object of the heap — in particular each
descriptor's shared `defaultProperties` and the caller's message object — is
left untouched, and the fresh target ends up holding exactly the pure fold of
the source objects' values. -/
theorem C9_no_descriptor_mutation :
    ∀ (st : Store) (chainRefs : List Nat) (msgRef : Nat),
      (∀ r ∈ msgRef :: chainRefs, r < st.objs.length) →
      ((∀ r, r < st.objs.length →
          (buildPropsRef st chainRefs msgRef).1.get r = st.get r)
       ∧ (buildPropsRef st chainRefs msgRef).1.get (buildPropsRef st chainRefs msgRef).2
           = ((chainRefs.reverse ++ [msgRef]).map (fun r => st.get r)).foldl assign []) := by
  intro st chainRefs msgRef hmem
  have hmsg : msgRef < st.objs.length := hmem msgRef (List.mem_cons_self msgRef chainRefs)
  have hchain : ∀ r ∈ chainRefs, r < st.objs.length :=
    fun r hr => hmem r (List.mem_cons_of_mem _ hr)
  have hne : ∀ r ∈ chainRefs.reverse ++ [msgRef], r ≠ st.objs.length := by
    intro r hr
    rcases List.mem_append.mp hr with hr | hr
    · exact Nat.ne_of_lt (hchain r (List.mem_reverse.mp hr))
    · have : r = msgRef := by simpa using hr
      rw [this]
      exact Nat.ne_of_lt hmsg
  constructor
  · intro r hr
    unfold buildPropsRef
    rw [assignRefs_get_ne _ _ _ _ (Nat.ne_of_lt hr)]
    show (st.objs ++ [[]]).getD r [] = st.objs.getD r []
    exact getD_append_left st.objs [[]] r hr
  · unfold buildPropsRef
    have ht1 : st.objs.length < (⟨st.objs ++ [[]]⟩ : Store).objs.length := by simp
    rw [assignRefs_get_self _ _ _ ht1 hne]
    have hget0 : (⟨st.objs ++ [[]]⟩ : Store).get st.objs.length = [] :=
      getD_append_length st.objs []
    rw [hget0, List.foldl_map]
    exact foldl_assign_congr (chainRefs.reverse ++ [msgRef]) _ _ []
      (fun r hr => by
        show (st.objs ++ [[]]).getD r [] = st.objs.getD r []
        have hrlt : r < st.objs.length := by
          rcases List.mem_append.mp hr with hr | hr
          · exact hchain r (List.mem_reverse.mp hr)
          · have : r = msgRef := by simpa using hr
            rw [this]; exact hmsg
        exact getD_append_left st.objs [[]] r hrlt)

def wStore : Store :=
  ⟨[[("x", Val.num 1), ("y", Val.num 1)], [("y", Val.num 2)], [("y", Val.num 3)],
    [("y", Val.num 4), ("z", Val.num 9)]]⟩

theorem C9_witness :
    (∀ r, r < wStore.objs.length →
       (buildPropsRef wStore [2, 1, 0] 3).1.get r = wStore.get r)
    ∧ (buildPropsRef wStore [2, 1, 0] 3).1.get (buildPropsRef wStore [2, 1, 0] 3).2
        = (([2, 1, 0].reverse ++ [3]).map (fun r => wStore.get r)).foldl assign [] :=
  C9_no_descriptor_mutation wStore [2, 1, 0] 3 (by decide)

end CustomErrorInstance
